import Mathlib

/-!
Shallow embedding of the field-service work-order system (React/TypeScript
single-page app).  The authoritative sources are `src/components/ResultsView.tsx`
(identity matcher, order state machine handlers, batch coordinator) and the
realtime/sync `App` component (`src/unnamed/part_000`): `handleOrderUpdate`
and the `postgres_changes` merge handler.

Modelling conventions:
* JavaScript strings are Lean `String`s; the normalized form used by the
  matcher is a `List Char`.
* `Date` values are abstracted to `Nat` instants; `deadline` is an
  `Option Nat` (`none` = absent/null) and "expired" is `now > d`, mirroring
  `new Date() > new Date(deadline)`.
* A TypeScript `Partial<Order>` patch is a structure of `Option` fields:
  `none` means the key is absent from the patch, `some v` means the key is
  present with value `v` (for optional Order fields `v` is itself an
  `Option`, `some none` modelling an explicitly `undefined`/`null` value,
  which a JS object spread does write over the old value).
* Asynchronous effects are made explicit: the outcome of the remote store
  write is a `Bool` parameter (`true` = fulfilled), the outcome of the
  AI verification call is an `Except String VerifyResult` parameter
  (`Except.error` models the promise rejecting).
* The rendered Chinese UI strings are kept only where a claim depends on
  them; the matcher's `reason` string is modelled by the inductive `Reason`
  carrying the same distinctions (length mismatch with both lengths, hard
  character mismatch with position and characters, over-budget fuzziness,
  exact match, fuzzy pass) that the rendered strings carry.
-/

namespace OrderSystem

/-- Order lifecycle status, from `types.ts`. -/
inductive OrderStatus
  | PENDING
  | DISPATCHED
  | RECEIVED
  | COMPLETED
deriving DecidableEq, Repr

/-- Session role, from `types.ts`. -/
inductive UserRole
  | ADMIN
  | WORKER
deriving DecidableEq, Repr

/-- Ephemeral session identity, from `types.ts` (the later revision also
carries an optional team). -/
structure User where
  name : String
  role : UserRole
  team : Option String := none
deriving DecidableEq, Repr

/-- Return reason enum, from `types.ts` (the four fixed site outcomes). -/
inductive ReturnReason
  | noOneHome
  | terminalInUse
  | terminalNotFound
  | other
deriving DecidableEq, Repr

/-- Audit status attached by the verification flow, from the later
`ResultsView.tsx` revision (`'PASSED' | 'FAILED' | 'PENDING'`). -/
inductive AuditStatus
  | PASSED
  | FAILED
  | PENDING
deriving DecidableEq, Repr

/-- The central Order entity, from `types.ts` plus the fields the later
`ResultsView.tsx` revision uses (`remarkImages`, `auditStatus`). -/
structure Order where
  id : String
  taskName : String
  businessNo : String
  team : String
  userName : String
  serialCode : String
  status : OrderStatus
  receivedAt : Option Nat := none
  completedAt : Option Nat := none
  history : List String := []
  deadline : Option Nat := none
  returnReason : Option ReturnReason := none
  completionRemark : Option String := none
  remarkImages : List String := []
  completionPhoto : Option String := none
  completionAudio : Option String := none
  auditStatus : Option AuditStatus := none
deriving DecidableEq, Repr

/-! ## Identity Matcher (`ResultsView.tsx` lines 797-895) -/

/-- Character kept by the normalization regex `[^A-Z0-9]` (after
uppercasing). -/
def isUpperAlnum (c : Char) : Bool :=
  ('A' ≤ c && c ≤ 'Z') || ('0' ≤ c && c ≤ '9')

/-- `normalizeString` from `ResultsView.tsx`:
`str.toUpperCase().replace(/[^A-Z0-9]/g, '')`.  The normalized form is
modelled as the list of surviving characters. -/
def normalizeString (str : String) : List Char :=
  (str.data.map Char.toUpper).filter isUpperAlnum

/-- The `ALLOWED_SWAPS` OCR ambiguity whitelist from `ResultsView.tsx`,
as a lookup from a target character to the candidate characters accepted
in its place. -/
def ALLOWED_SWAPS (c : Char) : List Char :=
  if c = '0' then ['O', 'Q', 'D']
  else if c = 'O' then ['0', 'Q', 'D']
  else if c = 'Q' then ['0', 'O']
  else if c = 'D' then ['0', 'O']
  else if c = '8' then ['B']
  else if c = 'B' then ['8']
  else if c = 'Z' then ['2']
  else if c = '2' then ['Z']
  else if c = '1' then ['I', 'L']
  else if c = 'I' then ['1', 'L']
  else if c = 'L' then ['1', 'I']
  else if c = '5' then ['S']
  else if c = 'S' then ['5']
  else []

/-- Structured content of the `reason` string returned by `strictCompare`.
`lengthMismatch` carries the two normalized lengths, `hardMismatch` the
0-based position and the two characters (the rendered string displays the
position 1-based), `tooFuzzy` is the over-budget message, `exactMatch` and
`fuzzyPass` the two success messages. -/
inductive Reason
  | lengthMismatch (targetLen candLen : Nat)
  | hardMismatch (pos : Nat) (tChar cChar : Char)
  | tooFuzzy
  | exactMatch
  | fuzzyPass
deriving DecidableEq, Repr

/-- Result record of `strictCompare`; the source field `match` is a Lean
keyword and is rendered `isMatch`. -/
structure CompareResult where
  isMatch : Bool
  reason : Reason
  score : Nat
deriving DecidableEq, Repr

/-- The check performed after the character loop of `strictCompare`.
`diffCount2` holds twice the source's `diffCount` (the source adds `0.5`
per listed swap; we add `1`), so the source's `diffCount > 1.0` is
`diffCount2 > 2` and `diffCount === 0` is `diffCount2 = 0`. -/
def finalCheck (diffCount2 : Nat) : CompareResult :=
  if diffCount2 > 2 then ⟨false, .tooFuzzy, 0⟩
  else if diffCount2 = 0 then ⟨true, .exactMatch, 1⟩
  else ⟨true, .fuzzyPass, 1⟩

/-- The per-index loop of `strictCompare` (`for i in 0..min length`):
walks the two normalized strings in lockstep (stopping at the shorter),
charging 1 (for the source's 0.5) per listed swap into `diffCount2`,
failing immediately on an unlisted mismatch, and running `finalCheck`
when the shorter string is exhausted.  `i` is the current 0-based index. -/
def compareChars : List Char → List Char → Nat → Nat → CompareResult
  | charT :: ts, charC :: cs, i, diffCount2 =>
    if charT = charC then compareChars ts cs (i + 1) diffCount2
    else if charC ∈ ALLOWED_SWAPS charT then
      compareChars ts cs (i + 1) (diffCount2 + 1)
    else ⟨false, .hardMismatch i charT charC, 0⟩
  | _, _, _, diffCount2 => finalCheck diffCount2

/-- `strictCompare` from `ResultsView.tsx` lines 850-895: normalize both
inputs, fail on a length gap above 1, then run the character loop. -/
def strictCompare (target candidate : String) : CompareResult :=
  let normTarget := normalizeString target
  let normCand := normalizeString candidate
  if ((normTarget.length : Int) - (normCand.length : Int)).natAbs > 1 then
    ⟨false, .lengthMismatch normTarget.length normCand.length, 0⟩
  else compareChars normTarget normCand 0 0

/-! ## Spec-side model of the Identity Matcher (§4.1 of the spec)

These definitions follow the wording of the specification, to be compared
with `strictCompare` above. -/

/-- Modelled from the spec's words: the cumulative fuzzy cost of walking
the shorter normalized string index by index, in half-units (the spec's
0.5 per listed swap is 1 here); `none` when some mismatched pair is not
in the ambiguity table ("fail immediately"). -/
def specFuzzyCost2 : List Char → List Char → Option Nat
  | a :: as, b :: bs =>
    if a = b then specFuzzyCost2 as bs
    else if b ∈ ALLOWED_SWAPS a then (specFuzzyCost2 as bs).map (· + 1)
    else none
  | _, _ => some 0

/-- Modelled from the spec's words: the five distinguishable outcomes of
`compare` in §4.1. -/
inductive SpecOutcome
  | lengthMismatch
  | hardFail
  | overBudget
  | exact
  | fuzzy
deriving DecidableEq, Repr

/-- Modelled from the spec's words (§4.1): normalize both inputs; fail on
a normalized length gap above 1; fail on any unlisted mismatched pair;
fail when the cumulative cost exceeds 1.0 (two half-unit swaps, cost 2
here, still pass; three fail); otherwise succeed, distinguishing exact
(cost 0) from fuzzy (cost > 0). -/
def matcherSpec (target candidate : String) : SpecOutcome :=
  let normTarget := normalizeString target
  let normCand := normalizeString candidate
  if ((normTarget.length : Int) - (normCand.length : Int)).natAbs > 1 then
    .lengthMismatch
  else
    match specFuzzyCost2 normTarget normCand with
    | none => .hardFail
    | some k => if k > 2 then .overBudget else if k = 0 then .exact else .fuzzy

/-! ## Sync/Reconciliation layer (`src/unnamed/part_000`) -/

/-- The `INSERT` branch of the realtime `postgres_changes` handler
(part_000 lines 56-57): `setOrders((prev) => [payload.new, ...prev])`.
The record is prepended unconditionally. -/
def applyInsertEvent (rec : Order) (prev : List Order) : List Order :=
  rec :: prev

/-- The `UPDATE` branch (part_000 lines 58-59):
`prev.map(o => o.id === payload.new.id ? payload.new : o)`. -/
def applyUpdateEvent (rec : Order) (prev : List Order) : List Order :=
  prev.map fun o => if o.id = rec.id then rec else o

/-- The `DELETE` branch (part_000 lines 60-61):
`prev.filter(o => o.id !== payload.old.id)`. -/
def applyDeleteEvent (oldId : String) (prev : List Order) : List Order :=
  prev.filter fun o => o.id ≠ oldId

/-- A TypeScript `Partial<Order>` patch. A field is `none` when the key is
absent from the patch object; `some v` when the key is present (for the
optional Order fields, `some none` models a present key whose value is
`undefined`/`null`, which an object spread does write). -/
structure OrderPatch where
  id : Option String := none
  taskName : Option String := none
  businessNo : Option String := none
  team : Option String := none
  userName : Option String := none
  serialCode : Option String := none
  status : Option OrderStatus := none
  receivedAt : Option (Option Nat) := none
  completedAt : Option (Option Nat) := none
  history : Option (List String) := none
  deadline : Option (Option Nat) := none
  returnReason : Option (Option ReturnReason) := none
  completionRemark : Option (Option String) := none
  remarkImages : Option (List String) := none
  completionPhoto : Option (Option String) := none
  completionAudio : Option (Option String) := none
  auditStatus : Option (Option AuditStatus) := none
deriving DecidableEq, Repr

/-- The object spread `{ ...o, ...updates }` used by `handleOrderUpdate`:
every key present in the patch overwrites the corresponding field. -/
def applyPatch (o : Order) (p : OrderPatch) : Order where
  id := p.id.getD o.id
  taskName := p.taskName.getD o.taskName
  businessNo := p.businessNo.getD o.businessNo
  team := p.team.getD o.team
  userName := p.userName.getD o.userName
  serialCode := p.serialCode.getD o.serialCode
  status := p.status.getD o.status
  receivedAt := p.receivedAt.getD o.receivedAt
  completedAt := p.completedAt.getD o.completedAt
  history := p.history.getD o.history
  deadline := p.deadline.getD o.deadline
  returnReason := p.returnReason.getD o.returnReason
  completionRemark := p.completionRemark.getD o.completionRemark
  remarkImages := p.remarkImages.getD o.remarkImages
  completionPhoto := p.completionPhoto.getD o.completionPhoto
  completionAudio := p.completionAudio.getD o.completionAudio
  auditStatus := p.auditStatus.getD o.auditStatus

/-- `handleOrderUpdate` from part_000 lines 162-177: applies the patch to
the matching order in the local collection first (optimistic), then sends
it to the remote store.  `remoteOk` is the outcome of the remote write
(`false` = the write failed); the failure is only logged, never thrown,
and the local change is never rolled back, so the first component does not
depend on `remoteOk` and the second component merely reports it. -/
def handleOrderUpdate (orders : List Order) (orderId : String)
    (updates : OrderPatch) (remoteOk : Bool) : List Order × Bool :=
  let newOrders := orders.map fun o =>
    if o.id = orderId then applyPatch o updates else o
  (newOrders, remoteOk)

/-! ## Order state machine handlers (`ResultsView.tsx`, later revision) -/

/-- The deadline guard `order.deadline && new Date() > new Date(order.deadline)`. -/
def isExpired (deadline : Option Nat) (now : Nat) : Bool :=
  match deadline with
  | some d => now > d
  | none => false

/-- History line appended by `handleReceive`. -/
def receiveHistoryEntry (userName : String) (now : Nat) : String :=
  userName ++ " 于 " ++ toString now ++ " 接收订单"

/-- `handleReceive` from `ResultsView.tsx` lines 1556-1567: rejects when
the deadline has passed (for any actor), otherwise stamps `receivedAt`,
sets the status to `RECEIVED` and appends one history entry.  The `Bool`
component reports whether the transition was applied. -/
def handleReceive (orders : List Order) (order : Order) (currentUser : User)
    (now : Nat) (remoteOk : Bool) : List Order × Bool :=
  if isExpired order.deadline now then (orders, false)
  else
    let patch : OrderPatch :=
      { status := some .RECEIVED
        receivedAt := some (some now)
        history := some (order.history ++ [receiveHistoryEntry currentUser.name now]) }
    ((handleOrderUpdate orders order.id patch remoteOk).1, true)

/-- JavaScript `String.prototype.trim()`: strip leading and trailing
whitespace.  Written structurally over the character list (rather than
through `String.trim`, whose well-founded recursion the kernel cannot
evaluate). -/
def trim (s : String) : String :=
  String.mk (((s.data.dropWhile Char.isWhitespace).reverse.dropWhile
    Char.isWhitespace).reverse)

/-- History line appended by `confirmTransfer` (the un-trimmed new owner
name is interpolated, as in the source). -/
def transferHistoryEntry (adminName newOwnerName : String) (now : Nat) : String :=
  adminName ++ " 转派给 " ++ newOwnerName ++ " 于 " ++ toString now

/-- `confirmTransfer` from `ResultsView.tsx` lines 1691-1700: no-op when
the trimmed new owner name is empty, otherwise patches `userName` (and
only `userName`) plus one appended history entry, with the history read
from the first order found with the target id. -/
def confirmTransfer (orders : List Order) (targetOrderId newOwnerName : String)
    (currentUser : User) (now : Nat) (remoteOk : Bool) : List Order × Bool :=
  if trim newOwnerName = "" then (orders, false)
  else
    let targetOrder := orders.find? fun o => o.id = targetOrderId
    let currentHistory := match targetOrder with
      | some o => o.history
      | none => []
    let patch : OrderPatch :=
      { userName := some (trim newOwnerName)
        history := some (currentHistory ++
          [transferHistoryEntry currentUser.name newOwnerName now]) }
    ((handleOrderUpdate orders targetOrderId patch remoteOk).1, true)

/-- History line appended by `handleSaveDeadline`. -/
def deadlineHistoryEntry (userName : String) (now : Nat) : String :=
  userName ++ " 于 " ++ toString now ++ " 修改截止时间"

/-- `handleSaveDeadline` from `ResultsView.tsx` lines 1714-1723: sets the
deadline to the new value (`none` clears it, mirroring `null`) and appends
one history entry; there is no deadline or role guard. -/
def handleSaveDeadline (orders : List Order) (targetId : String)
    (newDeadline : Option Nat) (currentUser : User) (now : Nat)
    (remoteOk : Bool) : List Order × Bool :=
  let currentHistory := match orders.find? fun o => o.id = targetId with
    | some o => o.history
    | none => []
  let patch : OrderPatch :=
    { deadline := some newDeadline
      history := some (currentHistory ++
        [deadlineHistoryEntry currentUser.name now]) }
  ((handleOrderUpdate orders targetId patch remoteOk).1, true)

/-! ## Batch Operation Coordinator (`ResultsView.tsx` lines 1194-1223) -/

/-- History line appended by a batch transfer:
`批量转派至 [team] (name)`, the name part omitted when empty. -/
def batchHistoryEntry (adminName batchTeam newName : String) (now : Nat) : String :=
  adminName ++ " 批量转派至 [" ++ batchTeam ++ "] " ++
    (if newName = "" then "" else "(" ++ newName ++ ")") ++
    " 于 " ++ toString now

/-- The per-id patch built inside `confirmBatchTransfer`'s `map`: the
target order (and hence the history and the fallback owner name) is looked
up in the `orders` prop snapshot, the patched fields are `team`,
`userName` and the appended history entry. -/
def mkBatchPatch (orders : List Order) (orderId batchTeam batchWorkerName : String)
    (currentUser : User) (now : Nat) : OrderPatch :=
  let targetOrder := orders.find? fun o => o.id = orderId
  let currentHistory := match targetOrder with
    | some o => o.history
    | none => []
  let newName :=
    if trim batchWorkerName ≠ "" then trim batchWorkerName
    else match targetOrder with
      | some o => o.userName
      | none => ""
  { team := some batchTeam
    userName := some newName
    history := some (currentHistory ++
      [batchHistoryEntry currentUser.name batchTeam newName now]) }

/-- What `confirmBatchTransfer` reports to the user. -/
inductive BatchReport
  | noTeam
  | successCount (n : Nat)
  | genericError
deriving DecidableEq, Repr

/-- `confirmBatchTransfer` from `ResultsView.tsx` lines 1194-1223: early
return when no team is chosen; otherwise one `onUpdateOrder` promise per
selected id is created eagerly in a `map` (so every id's local optimistic
mutation is applied, in selection order, before anything is awaited), then
`Promise.all` is awaited: if every remote write fulfills, the success
alert reports `updates.length` (the number of selected ids); if any write
rejects, the `catch` shows a generic batch error with no per-id count.
`remoteOutcome id` is the fulfillment of id's remote write. -/
def confirmBatchTransfer (orders : List Order) (selectedOrderIds : List String)
    (batchTeam batchWorkerName : String) (currentUser : User) (now : Nat)
    (remoteOutcome : String → Bool) : List Order × BatchReport :=
  if batchTeam = "" then (orders, .noTeam)
  else
    let updates := selectedOrderIds.map fun oid =>
      (oid, mkBatchPatch orders oid batchTeam batchWorkerName currentUser now)
    let newOrders := updates.foldl
      (fun acc up => (handleOrderUpdate acc up.1 up.2 (remoteOutcome up.1)).1)
      orders
    if selectedOrderIds.all remoteOutcome then
      (newOrders, .successCount selectedOrderIds.length)
    else (newOrders, .genericError)

/-! ## Completion submission (`ResultsView.tsx` lines 1592-1684) -/

/-- Result record of `performAICheck` (the source field `match` is the
Lean keyword and is rendered `isMatch`). -/
structure VerifyResult where
  isMatch : Bool
  detected : String
  message : String
deriving DecidableEq, Repr

/-- How a call to `submitCompletion` ends, one constructor per `return`
path of the source. -/
inductive SubmitOutcome
  | noTarget
  | expiredReject
  | adminClose
  | missingReason
  | missingEvidence
  | verifyErrorReject
  | verifyFailReject (message detected : String)
  | submitted
deriving DecidableEq, Repr

/-- The verification note interpolated into the remark and the history
entry: `(AI核对: 通过/失败 - 识别为 X)` when a photo was verified,
`(无照片，待审核)` on the attachment-only path. -/
def verificationNoteFor (finalVerification : Option VerifyResult)
    (hasPhoto : Bool) (newAuditStatus : Option AuditStatus) : String :=
  match finalVerification, hasPhoto with
  | some v, true =>
      "(AI核对: " ++ (if v.isMatch then "通过" else "失败") ++
        " - 识别为 " ++ v.detected ++ ")"
  | _, _ => if newAuditStatus = some .PENDING then "(无照片，待审核)" else ""

/-- History line appended by `submitCompletion`. -/
def completionHistoryEntry (userName : String) (now : Nat)
    (actionDesc verificationNote : String) : String :=
  userName ++ " 于 " ++ toString now ++ " " ++ actionDesc ++ " " ++ verificationNote

/-- The tail of `submitCompletion` after the verification gate has been
passed: compress the images, build the completion patch (every completion
payload key is present in the patch, so an absent photo or audio clears
the stored one) and apply it through `onUpdateOrder`.  `compress` models
`compressBase64Image` and `cleanRemark` the regex strip of stale
verification notes; both are presentation-level string transforms. -/
def finishSubmit (orders : List Order) (target : Order) (currentUser : User)
    (reason : ReturnReason) (remark : String) (remarkImages : List String)
    (photoData : Option String) (audioData : Option (String × String))
    (now : Nat) (newAuditStatus : Option AuditStatus)
    (finalVerification : Option VerifyResult)
    (compress cleanRemark : String → String) (remoteOk : Bool) :
    List Order × SubmitOutcome :=
  let compressedPhoto := photoData.map compress
  let compressedRemarkImages := remarkImages.map compress
  let currentHistory := target.history
  let verificationNote :=
    verificationNoteFor finalVerification photoData.isSome newAuditStatus
  let isUpdate := target.status = OrderStatus.COMPLETED
  let actionDesc := if isUpdate then "修改了回单" else "完成回单"
  let remarkCleaned := cleanRemark remark
  let finalRemark := remarkCleaned ++
    (if remarkCleaned ≠ "" ∧ verificationNote ≠ "" then " " else "") ++
    verificationNote
  let patch : OrderPatch :=
    { status := some .COMPLETED
      completedAt := some (some now)
      returnReason := some (some reason)
      completionRemark := some (some finalRemark)
      remarkImages := some compressedRemarkImages
      completionPhoto := some compressedPhoto
      completionAudio := some (match audioData with
        | some a => if a.2 = "" then none else some a.2
        | none => none)
      auditStatus := some newAuditStatus
      history := some (currentHistory ++
        [completionHistoryEntry currentUser.name now actionDesc verificationNote]) }
  ((handleOrderUpdate orders target.id patch remoteOk).1, .submitted)

/-- `submitCompletion` from `ResultsView.tsx` lines 1592-1684, guard for
guard: no completion target; worker past the deadline; admin closes the
modal without writing; missing return reason; neither photo nor remark
attachment; then, for a worker with a photo, the awaited `performAICheck`
(modelled by the `aiCheck` parameter, `Except.error` = the call threw):
a non-match or a thrown verification call returns before any state
change (fail-closed), a match sets `auditStatus = PASSED`; a worker
without a photo (attachment-only) sets `auditStatus = PENDING`; finally
the completion patch is stored. -/
def submitCompletion (orders : List Order) (completionTarget : Option Order)
    (currentUser : User) (returnReason : Option ReturnReason) (remark : String)
    (remarkImages : List String) (photoData : Option String)
    (audioData : Option (String × String)) (now : Nat)
    (aiCheck : Except String VerifyResult)
    (compress cleanRemark : String → String) (remoteOk : Bool) :
    List Order × SubmitOutcome :=
  match completionTarget with
  | none => (orders, .noTarget)
  | some target =>
    if currentUser.role = UserRole.WORKER ∧ isExpired target.deadline now then
      (orders, .expiredReject)
    else if currentUser.role = UserRole.ADMIN then (orders, .adminClose)
    else
      match returnReason with
      | none => (orders, .missingReason)
      | some reason =>
        let hasPhoto := photoData.isSome
        let hasAttachments := remarkImages.length > 0
        if ¬hasPhoto ∧ ¬hasAttachments then (orders, .missingEvidence)
        else
          match photoData with
          | some p =>
            match aiCheck with
            | .error _ => (orders, .verifyErrorReject)
            | .ok r =>
              if ¬r.isMatch then (orders, .verifyFailReject r.message r.detected)
              else
                finishSubmit orders target currentUser reason remark remarkImages
                  (some p) audioData now (some .PASSED) (some r)
                  compress cleanRemark remoteOk
          | none =>
            finishSubmit orders target currentUser reason remark remarkImages
              none audioData now (some .PENDING)
              (some ⟨true, "无", "无照片，已转人工审核"⟩)
              compress cleanRemark remoteOk

/-! ## Helper predicates and concrete fixtures used by the verification -/

/-- The fields of an order that a reassignment must not touch: everything
except `team`, `userName` and `history`. -/
def frameEq (o o' : Order) : Prop :=
  o'.id = o.id ∧ o'.taskName = o.taskName ∧ o'.businessNo = o.businessNo ∧
  o'.serialCode = o.serialCode ∧ o'.status = o.status ∧
  o'.receivedAt = o.receivedAt ∧ o'.completedAt = o.completedAt ∧
  o'.deadline = o.deadline ∧ o'.returnReason = o.returnReason ∧
  o'.completionRemark = o.completionRemark ∧ o'.remarkImages = o.remarkImages ∧
  o'.completionPhoto = o.completionPhoto ∧ o'.completionAudio = o.completionAudio ∧
  o'.auditStatus = o.auditStatus

/-- One step of applying a queued `(orderId, patch)` pair to a single
order, the element-wise view of `handleOrderUpdate`'s collection map. -/
def applyUpdateStep (o : Order) (up : String × OrderPatch) : Order :=
  if o.id = up.1 then applyPatch o up.2 else o

/-- Concrete worker session used by the witnesses. -/
def wSession : User := { name := "W", role := .WORKER }

/-- Concrete admin session used by the witnesses. -/
def aSession : User := { name := "管理员", role := .ADMIN }

/-- Concrete received order used by the C1 witness. -/
def c1order : Order :=
  { id := "o1", taskName := "t", businessNo := "b", team := "T", userName := "W",
    serialCode := "S123456", status := .RECEIVED, history := ["h0"] }

/-- Concrete received order used by the C3 witness. -/
def c3order : Order :=
  { id := "o1", taskName := "t", businessNo := "b", team := "T", userName := "W",
    serialCode := "S123456", status := .RECEIVED, history := ["h0"] }

/-- The order stored by the C3 witness submission (attachment-only path). -/
def c3out : Order :=
  { id := "o1", taskName := "t", businessNo := "b", team := "T", userName := "W",
    serialCode := "S123456", status := .COMPLETED, receivedAt := none,
    completedAt := some 7,
    history := ["h0", "W 于 7 完成回单 (无照片，待审核)"],
    deadline := none, returnReason := some .other,
    completionRemark := some "(无照片，待审核)", remarkImages := ["img"],
    completionPhoto := none, completionAudio := none,
    auditStatus := some .PENDING }

/-- Concrete order with an already-passed deadline used by the C4 witness. -/
def c4order : Order :=
  { id := "o1", taskName := "t", businessNo := "b", team := "T", userName := "W",
    serialCode := "S123456", status := .DISPATCHED, history := ["h0"],
    deadline := some 10 }

/-- Five dispatched orders used by the C5 counterexample and witness. -/
def c5orders : List Order :=
  [ { id := "b1", taskName := "t1", businessNo := "n1", team := "T", userName := "W",
      serialCode := "S1", status := .DISPATCHED, history := [] },
    { id := "b2", taskName := "t2", businessNo := "n2", team := "T", userName := "W",
      serialCode := "S2", status := .DISPATCHED, history := [] },
    { id := "b3", taskName := "t3", businessNo := "n3", team := "T", userName := "W",
      serialCode := "S3", status := .DISPATCHED, history := [] },
    { id := "b4", taskName := "t4", businessNo := "n4", team := "T", userName := "W",
      serialCode := "S4", status := .DISPATCHED, history := [] },
    { id := "b5", taskName := "t5", businessNo := "n5", team := "T", userName := "W",
      serialCode := "S5", status := .DISPATCHED, history := [] } ]

/-- The five target ids of the C5 scenario. -/
def c5ids : List String := ["b1", "b2", "b3", "b4", "b5"]

/-- Remote outcome forcing exactly the mutation of id `b3` to fail. -/
def c5failOne (oid : String) : Bool := oid ≠ "b3"

/-- Remote outcome where every write fulfills. -/
def c5allOk (_ : String) : Bool := true

/-- Concrete order used by the C6 counterexample. -/
def c6rec : Order :=
  { id := "r1", taskName := "t", businessNo := "b", team := "T", userName := "W",
    serialCode := "S", status := .DISPATCHED, history := [] }

/-- Concrete order used by the C7 witness. -/
def c7order : Order :=
  { id := "w1", taskName := "t", businessNo := "b", team := "T", userName := "W",
    serialCode := "S", status := .DISPATCHED, history := [] }

/-- Concrete patch used by the C7 witness. -/
def c7patch : OrderPatch := { status := some .RECEIVED, receivedAt := some (some 3) }

/-- Concrete order used by the C8 witness. -/
def c8order : Order :=
  { id := "a1", taskName := "t", businessNo := "b", team := "T", userName := "W",
    serialCode := "S", status := .DISPATCHED, history := [] }

/-- Concrete order used by the C9 witness. -/
def c9order : Order :=
  { id := "x1", taskName := "t", businessNo := "b", team := "T", userName := "W",
    serialCode := "S", status := .RECEIVED, history := ["h0"] }

/-- Remote outcome used by the C9 witness (every write fulfills). -/
def c9outcome (_ : String) : Bool := true

/-! ## Shared helper lemmas -/

/-- After `handleOrderUpdate`, every order carrying the target id has any
field that the patch sets rewritten to the patched value. -/
theorem field_of_mem_update {α : Type} (orders : List Order) (tid : String)
    (patch : OrderPatch) (b : Bool) (f : Order → α) (v : α)
    (hpatch : ∀ x, f (applyPatch x patch) = v) :
    ∀ o ∈ (handleOrderUpdate orders tid patch b).1, o.id = tid → f o = v := by
  intro o ho hid
  simp only [handleOrderUpdate, List.mem_map] at ho
  obtain ⟨x, hx, rfl⟩ := ho
  by_cases h : x.id = tid
  · rw [if_pos h]
    exact hpatch x
  · rw [if_neg h] at hid
    exact absurd hid h

/-! ## Claim C6 (sync-layer insert merge) -/

/-- Claim C6, counterexample: re-applying an insert event whose record id
is already present in the collection produces a duplicate entry — the
handler prepends without an absence check. -/
theorem claim_C6_cex :
    applyInsertEvent c6rec [c6rec] = [c6rec, c6rec] ∧
    (applyInsertEvent c6rec [c6rec]).length = 2 :=
  ⟨rfl, rfl⟩

/-- Claim C6 (amended): when a remote insert event is merged into the
local order collection, the record is prepended unconditionally, with no
check whether an order with that id is already present; the collection
always grows by one, so re-applying the same insert event duplicates the
record. -/
theorem claim_C6 (rec : Order) (prev : List Order) :
    applyInsertEvent rec prev = rec :: prev ∧
    (applyInsertEvent rec prev).length = prev.length + 1 :=
  ⟨rfl, by simp [applyInsertEvent]⟩

/-! ## Claim C7 (optimistic mutation never rolled back) -/

/-- Claim C7: `handleOrderUpdate` applies the patch to the matching local
order regardless of the remote outcome — the local collection after a
failed remote write is identical to the one after a successful write, the
patched order is in the collection either way, and the failure surfaces
only as the returned non-fatal signal (the function is total, it never
throws). -/
theorem claim_C7 (orders : List Order) (orderId : String)
    (updates : OrderPatch) (remoteOk : Bool) :
    (handleOrderUpdate orders orderId updates remoteOk).1
        = (handleOrderUpdate orders orderId updates true).1
    ∧ (∀ o ∈ orders, o.id = orderId →
        applyPatch o updates ∈ (handleOrderUpdate orders orderId updates remoteOk).1)
    ∧ (handleOrderUpdate orders orderId updates remoteOk).2 = remoteOk := by
  refine ⟨rfl, ?_, rfl⟩
  intro o ho h
  simp only [handleOrderUpdate]
  exact List.mem_map.mpr ⟨o, ho, by rw [if_pos h]⟩

/-- Claim C7 witness: a concrete patched order stays in the local
collection although the remote write failed. -/
theorem claim_C7_witness :
    applyPatch c7order c7patch ∈ (handleOrderUpdate [c7order] "w1" c7patch false).1 :=
  (claim_C7 [c7order] "w1" c7patch false).2.1 c7order (List.mem_singleton.mpr rfl) rfl

/-! ## Claim C8 (update/delete merge idempotence) -/

/-- Claim C8: merging a remote delete event for an id not present in the
collection leaves the collection unchanged, and merging the identical
update event twice leaves the collection identical to merging it once. -/
theorem claim_C8 (prev : List Order) (idv : String) (rec : Order) :
    ((∀ o ∈ prev, o.id ≠ idv) → applyDeleteEvent idv prev = prev)
    ∧ applyUpdateEvent rec (applyUpdateEvent rec prev) = applyUpdateEvent rec prev := by
  constructor
  · intro h
    simp only [applyDeleteEvent]
    exact List.filter_eq_self.mpr fun a ha => by simpa using h a ha
  · simp only [applyUpdateEvent, List.map_map]
    induction prev with
    | nil => rfl
    | cons a l ih =>
      simp only [List.map_cons, List.map_map] at ih ⊢
      rw [ih]
      by_cases h : a.id = rec.id <;> simp [Function.comp, h]

/-- Claim C8 witness: both idempotence facts at a concrete collection. -/
theorem claim_C8_witness :
    applyDeleteEvent "zz" [c8order] = [c8order]
    ∧ applyUpdateEvent c8order (applyUpdateEvent c8order [c8order])
        = applyUpdateEvent c8order [c8order] :=
  ⟨(claim_C8 [c8order] "zz" c8order).1 (by decide),
   (claim_C8 [c8order] "zz" c8order).2⟩

/-! ## Claim C10 (surplus trailing character is never examined) -/

/-- When the candidate list extends the target list, the character loop
runs over the shorter (target) list only and ends in the final budget
check: the surplus suffix is never examined. -/
theorem compareChars_extendCand (l r : List Char) :
    ∀ i d, compareChars l (l ++ r) i d = finalCheck d := by
  induction l with
  | nil => intro i d; cases r <;> rfl
  | cons a as ih => intro i d; simp [compareChars, ih]

/-- Symmetric version: the target list extends the candidate list. -/
theorem compareChars_extendTarget (l r : List Char) :
    ∀ i d, compareChars (l ++ r) l i d = finalCheck d := by
  induction l with
  | nil => intro i d; cases r <;> rfl
  | cons a as ih => intro i d; simp [compareChars, ih]

/-- Claim C10: when one normalized input is the other plus one arbitrary
extra trailing character, only the shared prefix is examined: the surplus
character contributes no cost and is checked against nothing, so the
comparison succeeds and, with no other differences, reports an exact
match (cost 0, score 1). -/
theorem claim_C10 (target candidate : String) (x : Char) :
    (normalizeString candidate = normalizeString target ++ [x] →
      strictCompare target candidate = ⟨true, .exactMatch, 1⟩)
    ∧ (normalizeString target = normalizeString candidate ++ [x] →
      strictCompare target candidate = ⟨true, .exactMatch, 1⟩) := by
  constructor
  · intro h
    have hlen : ¬ (((normalizeString target).length : Int)
        - ((normalizeString candidate).length : Int)).natAbs > 1 := by
      rw [h]
      simp only [List.length_append, List.length_singleton]
      omega
    simp only [strictCompare]
    rw [if_neg hlen, h, compareChars_extendCand]
    rfl
  · intro h
    have hlen : ¬ (((normalizeString target).length : Int)
        - ((normalizeString candidate).length : Int)).natAbs > 1 := by
      rw [h]
      simp only [List.length_append, List.length_singleton]
      omega
    simp only [strictCompare]
    rw [if_neg hlen, h, compareChars_extendTarget]
    rfl

/-- Claim C10 witness: a candidate with one extra trailing character is
accepted as an exact match. -/
theorem claim_C10_witness :
    strictCompare "AB12" "AB123" = ⟨true, .exactMatch, 1⟩ :=
  (claim_C10 "AB12" "AB123" '3').1 (by decide)

/-! ## Claim C2 (Identity Matcher refines its specification) -/

/-- Map a source comparison result to the spec's outcome classification,
reading off which reason the source produced. -/
def classifyResult (r : CompareResult) : SpecOutcome :=
  match r.reason with
  | .lengthMismatch _ _ => .lengthMismatch
  | .hardMismatch _ _ _ => .hardFail
  | .tooFuzzy => .overBudget
  | .exactMatch => .exact
  | .fuzzyPass => .fuzzy

/-- The character loop of `strictCompare` computes exactly the spec's
fuzzy cost: an unlisted mismatch in the common prefix produces the
immediate hard failure, and otherwise the loop ends in the budget check
on the accumulated cost. -/
theorem compareChars_cost (t : List Char) : ∀ (c : List Char) (i d : Nat),
    (specFuzzyCost2 t c = none →
      ∃ j a b, compareChars t c i d = ⟨false, .hardMismatch j a b, 0⟩)
    ∧ (∀ k, specFuzzyCost2 t c = some k →
      compareChars t c i d = finalCheck (d + k)) := by
  induction t with
  | nil =>
    intro c i d
    constructor
    · intro h
      cases c <;> simp [specFuzzyCost2] at h
    · intro k hk
      cases c <;> simp [specFuzzyCost2] at hk <;>
        simp [compareChars, ← hk]
  | cons a as ih =>
    intro c i d
    cases c with
    | nil =>
      constructor
      · intro h
        simp [specFuzzyCost2] at h
      · intro k hk
        simp [specFuzzyCost2] at hk
        simp [compareChars, ← hk]
    | cons b bs =>
      by_cases hab : a = b
      · subst hab
        constructor
        · intro h
          simp only [specFuzzyCost2, if_pos rfl] at h
          obtain ⟨j, a', b', hc⟩ := (ih bs (i + 1) d).1 h
          exact ⟨j, a', b', by simp [compareChars, hc]⟩
        · intro k hk
          simp only [specFuzzyCost2, if_pos rfl] at hk
          have hc := (ih bs (i + 1) d).2 k hk
          simp [compareChars, hc]
      · by_cases hmem : b ∈ ALLOWED_SWAPS a
        · constructor
          · intro h
            simp only [specFuzzyCost2, if_neg hab, if_pos hmem,
              Option.map_eq_none'] at h
            obtain ⟨j, a', b', hc⟩ := (ih bs (i + 1) (d + 1)).1 h
            exact ⟨j, a', b', by simp [compareChars, hab, hmem, hc]⟩
          · intro k hk
            simp only [specFuzzyCost2, if_neg hab, if_pos hmem,
              Option.map_eq_some'] at hk
            obtain ⟨k', hk', rfl⟩ := hk
            have hc := (ih bs (i + 1) (d + 1)).2 k' hk'
            have harith : d + 1 + k' = d + (k' + 1) := by omega
            rw [harith] at hc
            simp [compareChars, hab, hmem, hc]
        · constructor
          · intro _
            exact ⟨i, a, b, by simp [compareChars, hab, hmem]⟩
          · intro k hk
            simp [specFuzzyCost2, hab, hmem] at hk

/-- Claim C2: `strictCompare` behaves exactly as the specification's
`compare` describes — `matcherSpec` (written from the spec's words)
classifies every input pair exactly as the source's returned reason does,
success is exactly the spec's exact-or-fuzzy outcome, and the boundary
cases hold: two listed swaps (cost exactly 1.0) still pass as a fuzzy
match, three listed swaps fail over budget, and one unlisted pair fails
immediately. -/
theorem claim_C2 (target candidate : String) :
    (matcherSpec target candidate = classifyResult (strictCompare target candidate))
    ∧ ((strictCompare target candidate).isMatch = true ↔
        (matcherSpec target candidate = .exact ∨ matcherSpec target candidate = .fuzzy))
    ∧ strictCompare "0123" "OI23" = ⟨true, .fuzzyPass, 1⟩
    ∧ strictCompare "0123" "OIZ3" = ⟨false, .tooFuzzy, 0⟩
    ∧ (∃ j a b, (strictCompare "712" "212").reason = .hardMismatch j a b)
        ∧ (strictCompare "712" "212").isMatch = false := by
  have main : (matcherSpec target candidate
        = classifyResult (strictCompare target candidate))
      ∧ ((strictCompare target candidate).isMatch = true ↔
        (matcherSpec target candidate = .exact
          ∨ matcherSpec target candidate = .fuzzy)) := by
    simp only [matcherSpec, strictCompare]
    by_cases hl : (((normalizeString target).length : Int)
        - ((normalizeString candidate).length : Int)).natAbs > 1
    · simp [hl, classifyResult]
    · rw [if_neg hl, if_neg hl]
      rcases h : specFuzzyCost2 (normalizeString target) (normalizeString candidate)
        with _ | k
      · obtain ⟨j, a, b, hc⟩ :=
          (compareChars_cost (normalizeString target) (normalizeString candidate) 0 0).1 h
        simp [hc, classifyResult]
      · have hc :=
          (compareChars_cost (normalizeString target) (normalizeString candidate) 0 0).2 k h
        rw [Nat.zero_add] at hc
        rw [hc]
        by_cases h2 : k > 2
        · simp [finalCheck, h2, classifyResult]
        · by_cases h0 : k = 0
          · simp [finalCheck, h2, h0, classifyResult]
          · simp [finalCheck, h2, h0, classifyResult]
  exact ⟨main.1, main.2, by decide, by decide, ⟨0, '7', '2', by decide⟩, by decide⟩

/-! ## Claim C1 (photo verification is fail-closed) -/

/-- Claim C1: for a worker-initiated completion submission that includes a
photo, the COMPLETED transition is stored only when the verification call
returned `match = true`; when verification returns `match = false`, or the
verification call throws (service unreachable), the submission is rejected
and the order collection — hence every order's `auditStatus` — is left
unchanged. -/
theorem claim_C1 (orders : List Order) (target : Order) (currentUser : User)
    (returnReason : Option ReturnReason) (remark : String)
    (remarkImages : List String) (photo : String)
    (audioData : Option (String × String)) (now : Nat)
    (aiCheck : Except String VerifyResult) (compress cleanRemark : String → String)
    (remoteOk : Bool) (hw : currentUser.role = UserRole.WORKER) :
    ((submitCompletion orders (some target) currentUser returnReason remark
        remarkImages (some photo) audioData now aiCheck compress cleanRemark
        remoteOk).2 = .submitted →
      ∃ r, aiCheck = .ok r ∧ r.isMatch = true)
    ∧ (∀ e, aiCheck = .error e →
      (submitCompletion orders (some target) currentUser returnReason remark
          remarkImages (some photo) audioData now aiCheck compress cleanRemark
          remoteOk).1 = orders
      ∧ (submitCompletion orders (some target) currentUser returnReason remark
          remarkImages (some photo) audioData now aiCheck compress cleanRemark
          remoteOk).2 ≠ .submitted)
    ∧ (∀ r, aiCheck = .ok r → r.isMatch = false →
      (submitCompletion orders (some target) currentUser returnReason remark
          remarkImages (some photo) audioData now aiCheck compress cleanRemark
          remoteOk).1 = orders
      ∧ (submitCompletion orders (some target) currentUser returnReason remark
          remarkImages (some photo) audioData now aiCheck compress cleanRemark
          remoteOk).2 ≠ .submitted) := by
  have hA : ¬ currentUser.role = UserRole.ADMIN := by
    rw [hw]
    intro hcon
    cases hcon
  simp only [submitCompletion]
  by_cases hexp : currentUser.role = UserRole.WORKER ∧ isExpired target.deadline now
  · rw [if_pos hexp]
    refine ⟨by simp, by simp, by simp⟩
  · rw [if_neg hexp, if_neg hA]
    cases returnReason with
    | none => refine ⟨by simp, by simp, by simp⟩
    | some reason =>
      dsimp only
      rw [if_neg (by simp)]
      cases aiCheck with
      | error e => refine ⟨by simp, by simp, by simp⟩
      | ok r =>
        dsimp only
        cases hm : r.isMatch with
        | false =>
          rw [if_pos (by simp [hm])]
          refine ⟨by simp, by simp, ?_⟩
          intro r' hr' _
          cases hr'
          exact ⟨rfl, by simp⟩
        | true =>
          rw [if_neg (by simp [hm])]
          refine ⟨fun _ => ⟨r, rfl, hm⟩, by simp, ?_⟩
          intro r' hr' hm'
          cases hr'
          rw [hm] at hm'
          cases hm'

/-- Claim C1 witness: a concrete worker submission with a photo whose
verification call throws is rejected with the collection unchanged. -/
theorem claim_C1_witness :
    (submitCompletion [c1order] (some c1order) wSession (some .other) "" []
        (some "img") none 0 (Except.error "down") id id true).1 = [c1order]
    ∧ (submitCompletion [c1order] (some c1order) wSession (some .other) "" []
        (some "img") none 0 (Except.error "down") id id true).2 ≠ .submitted :=
  (claim_C1 [c1order] c1order wSession (some .other) "" [] "img" none 0
    (Except.error "down") id id true rfl).2.1 "down" rfl

/-! ## Claim C3 (completion gate and audit status) -/

/-- After the accepted tail of a submission, every stored order with the
target id carries exactly the audit status the gate selected. -/
theorem finishSubmit_auditStatus (orders : List Order) (target : Order)
    (currentUser : User) (reason : ReturnReason) (remark : String)
    (remarkImages : List String) (photoData : Option String)
    (audioData : Option (String × String)) (now : Nat)
    (st : Option AuditStatus) (fv : Option VerifyResult)
    (compress cleanRemark : String → String) (remoteOk : Bool) :
    ∀ o ∈ (finishSubmit orders target currentUser reason remark remarkImages
        photoData audioData now st fv compress cleanRemark remoteOk).1,
      o.id = target.id → o.auditStatus = st := by
  simp only [finishSubmit]
  exact field_of_mem_update _ _ _ _ _ _ (fun x => rfl)

/-- Claim C3: a worker submission with neither a completion photo nor a
remark attachment is rejected with no state change; an accepted
attachment-only submission (no photo) stores `auditStatus = PENDING` on
the target order; an accepted submission with a (verified) photo stores
`auditStatus = PASSED`. -/
theorem claim_C3 (orders : List Order) (target : Order) (currentUser : User)
    (returnReason : Option ReturnReason) (remark : String)
    (remarkImages : List String) (photoData : Option String)
    (audioData : Option (String × String)) (now : Nat)
    (aiCheck : Except String VerifyResult) (compress cleanRemark : String → String)
    (remoteOk : Bool) (hw : currentUser.role = UserRole.WORKER) :
    (photoData = none → remarkImages = [] →
      (submitCompletion orders (some target) currentUser returnReason remark
          remarkImages photoData audioData now aiCheck compress cleanRemark
          remoteOk).1 = orders
      ∧ (submitCompletion orders (some target) currentUser returnReason remark
          remarkImages photoData audioData now aiCheck compress cleanRemark
          remoteOk).2 ≠ .submitted)
    ∧ (photoData = none →
      (submitCompletion orders (some target) currentUser returnReason remark
          remarkImages photoData audioData now aiCheck compress cleanRemark
          remoteOk).2 = .submitted →
      ∀ o ∈ (submitCompletion orders (some target) currentUser returnReason remark
          remarkImages photoData audioData now aiCheck compress cleanRemark
          remoteOk).1, o.id = target.id → o.auditStatus = some .PENDING)
    ∧ (photoData.isSome = true →
      (submitCompletion orders (some target) currentUser returnReason remark
          remarkImages photoData audioData now aiCheck compress cleanRemark
          remoteOk).2 = .submitted →
      ∀ o ∈ (submitCompletion orders (some target) currentUser returnReason remark
          remarkImages photoData audioData now aiCheck compress cleanRemark
          remoteOk).1, o.id = target.id → o.auditStatus = some .PASSED) := by
  have hA : ¬ currentUser.role = UserRole.ADMIN := by
    rw [hw]
    intro hcon
    cases hcon
  simp only [submitCompletion]
  by_cases hexp : currentUser.role = UserRole.WORKER ∧ isExpired target.deadline now
  · rw [if_pos hexp]
    refine ⟨fun _ _ => ⟨rfl, by simp⟩, by simp, by simp⟩
  · rw [if_neg hexp, if_neg hA]
    cases returnReason with
    | none =>
      refine ⟨fun _ _ => ⟨rfl, by simp⟩, by simp, by simp⟩
    | some reason =>
      dsimp only
      cases photoData with
      | none =>
        cases remarkImages with
        | nil =>
          rw [if_pos (by simp)]
          refine ⟨fun _ _ => ⟨rfl, by simp⟩, by simp, by simp⟩
        | cons a as =>
          rw [if_neg (by simp)]
          refine ⟨?_, ?_, ?_⟩
          · intro _ h
            cases h
          · intro _ _
            exact finishSubmit_auditStatus orders target currentUser reason remark
              (a :: as) none audioData now (some .PENDING) _ compress cleanRemark
              remoteOk
          · intro h
            cases h
      | some p =>
        rw [if_neg (by simp)]
        cases aiCheck with
        | error e =>
          refine ⟨?_, ?_, ?_⟩
          · intro h
            cases h
          · intro h
            cases h
          · intro _ h
            cases h
        | ok r =>
          dsimp only
          cases hm : r.isMatch with
          | false =>
            rw [if_pos (by simp [hm])]
            refine ⟨?_, ?_, ?_⟩
            · intro h
              cases h
            · intro h
              cases h
            · intro _ h
              cases h
          | true =>
            rw [if_neg (by simp [hm])]
            refine ⟨?_, ?_, ?_⟩
            · intro h
              cases h
            · intro h
              cases h
            · intro _ _
              exact finishSubmit_auditStatus orders target currentUser reason remark
                remarkImages (some p) audioData now (some .PASSED) _ compress
                cleanRemark remoteOk

/-- Claim C3 witness: a concrete attachment-only worker submission is
accepted and stores `auditStatus = PENDING`. -/
theorem claim_C3_witness :
    (submitCompletion [c3order] (some c3order) wSession (some .other) "" ["img"]
        none none 7 (Except.ok ⟨true, "", ""⟩) id id true).2 = .submitted
    ∧ c3out.auditStatus = some AuditStatus.PENDING :=
  ⟨rfl,
    (claim_C3 [c3order] c3order wSession (some .other) "" ["img"] none none 7
        (Except.ok ⟨true, "", ""⟩) id id true rfl).2.1 rfl rfl c3out
      (List.mem_singleton.mpr rfl) rfl⟩

/-! ## Claim C4 (past deadline blocks worker paths, not admin edits) -/

/-- Claim C4: once an order's deadline lies in the past, the receive path
rejects and leaves the collection unchanged, and a WORKER's completion
submission is rejected as expired with the collection unchanged; an
admin's reassignment still goes through (the target order's `userName`
becomes the trimmed new owner) and the admin can still set or clear the
deadline, with no deadline guard on either path. -/
theorem claim_C4 (orders : List Order) (target : Order) (d now : Nat)
    (worker admin : User) (newOwnerName : String) (newDeadline : Option Nat)
    (returnReason : Option ReturnReason) (remark : String)
    (remarkImages : List String) (photoData : Option String)
    (audioData : Option (String × String))
    (aiCheck : Except String VerifyResult) (compress cleanRemark : String → String)
    (remoteOk : Bool)
    (hd : target.deadline = some d) (hnow : d < now)
    (hw : worker.role = UserRole.WORKER) (hn : trim newOwnerName ≠ "") :
    handleReceive orders target worker now remoteOk = (orders, false)
    ∧ submitCompletion orders (some target) worker returnReason remark
        remarkImages photoData audioData now aiCheck compress cleanRemark
        remoteOk = (orders, .expiredReject)
    ∧ ((confirmTransfer orders target.id newOwnerName admin now remoteOk).2 = true
      ∧ ∀ o ∈ (confirmTransfer orders target.id newOwnerName admin now remoteOk).1,
          o.id = target.id → o.userName = trim newOwnerName)
    ∧ ((handleSaveDeadline orders target.id newDeadline admin now remoteOk).2 = true
      ∧ ∀ o ∈ (handleSaveDeadline orders target.id newDeadline admin now remoteOk).1,
          o.id = target.id → o.deadline = newDeadline) := by
  have hexp : isExpired target.deadline now = true := by
    rw [hd]
    simpa [isExpired] using hnow
  refine ⟨?_, ?_, ?_, ?_⟩
  · simp only [handleReceive]
    rw [if_pos hexp]
  · simp only [submitCompletion]
    rw [if_pos ⟨hw, hexp⟩]
  · constructor
    · simp only [confirmTransfer]
      rw [if_neg hn]
    · simp only [confirmTransfer]
      rw [if_neg hn]
      exact field_of_mem_update _ _ _ _ _ _ (fun x => rfl)
  · constructor
    · rfl
    · simp only [handleSaveDeadline]
      exact field_of_mem_update _ _ _ _ _ _ (fun x => rfl)

/-- Claim C4 witness: the receive path at a concrete order whose deadline
(10) is before the current instant (100) rejects without a state change. -/
theorem claim_C4_witness :
    handleReceive [c4order] c4order wSession 100 true = ([c4order], false) :=
  (claim_C4 [c4order] c4order 10 100 wSession aSession "Bob" none none "" []
      none none (Except.error "e") id id true rfl (by decide) rfl (by decide)).1

/-! ## Claim C5 (batch transfer: attempts vs. reporting) -/

/-- Claim C5, counterexample: with 5 target ids of which exactly one
(`b3`) is forced to fail, the coordinator does not report a success count
of 4 — it awaits the eagerly-created promises with fail-fast
`Promise.all`, so the `catch` shows a generic batch error carrying no
per-id count. -/
theorem claim_C5_cex :
    (confirmBatchTransfer c5orders c5ids "T2" "" aSession 0 c5failOne).2
        = BatchReport.genericError
    ∧ (confirmBatchTransfer c5orders c5ids "T2" "" aSession 0 c5failOne).2
        ≠ BatchReport.successCount 4 := by
  constructor
  · rfl
  · decide

/-- Claim C5 (amended): a single id's rejection never prevents the other
ids' mutations from being attempted — every per-id update promise is
created (and its local optimistic mutation applied) before any is
awaited, so the resulting collection is the same as when every write
fulfills — but the reporting is fail-fast `Promise.all`: when every
remote write fulfills the success alert reports the number of selected
ids, and when any write rejects a generic batch error is reported instead
of a per-id success count. -/
theorem claim_C5 (orders : List Order) (selectedOrderIds : List String)
    (batchTeam batchWorkerName : String) (currentUser : User) (now : Nat)
    (remoteOutcome : String → Bool) (hteam : batchTeam ≠ "") :
    (confirmBatchTransfer orders selectedOrderIds batchTeam batchWorkerName
        currentUser now remoteOutcome).1
      = (confirmBatchTransfer orders selectedOrderIds batchTeam batchWorkerName
        currentUser now c5allOk).1
    ∧ (selectedOrderIds.all remoteOutcome = true →
      (confirmBatchTransfer orders selectedOrderIds batchTeam batchWorkerName
          currentUser now remoteOutcome).2
        = BatchReport.successCount selectedOrderIds.length)
    ∧ (selectedOrderIds.all remoteOutcome = false →
      (confirmBatchTransfer orders selectedOrderIds batchTeam batchWorkerName
          currentUser now remoteOutcome).2 = BatchReport.genericError) := by
  refine ⟨?_, ?_, ?_⟩
  · simp only [confirmBatchTransfer, if_neg hteam]
    split <;> split <;> rfl
  · intro h
    simp only [confirmBatchTransfer]
    rw [if_neg hteam]
    simp [h]
  · intro h
    simp only [confirmBatchTransfer]
    rw [if_neg hteam]
    simp [h]

/-- Claim C5 witness: with every remote write fulfilling, the concrete
5-order batch reports a success count of 5. -/
theorem claim_C5_witness :
    (confirmBatchTransfer c5orders c5ids "T2" "" aSession 0 c5allOk).2
        = BatchReport.successCount 5 := by
  have h := (claim_C5 c5orders c5ids "T2" "" aSession 0 c5allOk (by decide)).2.1
    (by decide)
  simpa using h

/-! ## Claim C9 (reassignment touches only owner, team and history) -/

/-- With pairwise-distinct order ids, `find?` on an id held by a member
returns exactly that member. -/
theorem find?_id_of_nodup (orders : List Order) (tid : String)
    (hnd : (orders.map Order.id).Nodup) (o : Order) (ho : o ∈ orders)
    (hid : o.id = tid) :
    (orders.find? fun x => x.id = tid) = some o := by
  induction orders with
  | nil => cases ho
  | cons a l ih =>
    have hnd' : a.id ∉ l.map Order.id ∧ (l.map Order.id).Nodup := by
      simpa using hnd
    rcases List.mem_cons.mp ho with rfl | hmem
    · exact List.find?_cons_of_pos _ (by simp [hid])
    · have hane : ¬ (a.id = tid) := by
        intro he
        apply hnd'.1
        rw [he, ← hid]
        exact List.mem_map_of_mem _ hmem
      rw [List.find?_cons_of_neg _ (by simp [hane])]
      exact ih hnd'.2 hmem

/-- The sequential application of queued `(orderId, patch)` updates to the
collection is the element-wise fold of the single-order steps. -/
theorem foldl_handleOrderUpdate_eq_map (outcome : String → Bool)
    (ups : List (String × OrderPatch)) :
    ∀ orders : List Order,
      ups.foldl (fun acc up => (handleOrderUpdate acc up.1 up.2 (outcome up.1)).1)
        orders = orders.map (fun o => ups.foldl applyUpdateStep o) := by
  induction ups with
  | nil => intro orders; simp
  | cons u us ih =>
    intro orders
    rw [List.foldl_cons, ih]
    simp only [handleOrderUpdate, List.map_map]
    rfl

/-- An order whose id is hit by none of the queued updates is left
untouched by the fold. -/
theorem foldl_step_not_mem (ups : List (String × OrderPatch)) (o : Order)
    (h : ∀ up ∈ ups, o.id ≠ up.1) :
    ups.foldl applyUpdateStep o = o := by
  induction ups with
  | nil => rfl
  | cons u us ih =>
    rw [List.foldl_cons]
    have h1 : applyUpdateStep o u = o := by
      simp only [applyUpdateStep]
      rw [if_neg (h u (List.mem_cons_self u us))]
    rw [h1]
    exact ih fun up hup => h up (List.mem_cons_of_mem u hup)

/-- With pairwise-distinct selected ids and id-preserving patches, an
order whose id is selected receives exactly its own patch. -/
theorem foldl_step_mem (mk : String → OrderPatch)
    (hmkid : ∀ oid, (mk oid).id = none) (selectedIds : List String) (o : Order)
    (hnd : selectedIds.Nodup) (hmem : o.id ∈ selectedIds) :
    (selectedIds.map fun oid => (oid, mk oid)).foldl applyUpdateStep o
      = applyPatch o (mk o.id) := by
  induction selectedIds with
  | nil => cases hmem
  | cons s ss ih =>
    rw [List.map_cons, List.foldl_cons]
    by_cases h : o.id = s
    · have hstep : applyUpdateStep o (s, mk s) = applyPatch o (mk s) := by
        simp only [applyUpdateStep]
        rw [if_pos h]
      rw [hstep, ← h]
      apply foldl_step_not_mem
      intro up hup
      obtain ⟨oid, hoid, rfl⟩ := List.mem_map.mp hup
      have hido : (applyPatch o (mk o.id)).id = o.id := by
        simp [applyPatch, hmkid o.id]
      rw [hido, h]
      intro he
      rw [he] at hnd
      exact (List.nodup_cons.mp hnd).1 hoid
    · have hstep : applyUpdateStep o (s, mk s) = o := by
        simp only [applyUpdateStep]
        rw [if_neg h]
      rw [hstep]
      refine ih (List.nodup_cons.mp hnd).2 ?_
      rcases List.mem_cons.mp hmem with h' | h'
      · exact absurd h' h
      · exact h'

/-- The collection produced by a batch transfer, as an element-wise map
(the report component does not influence it). -/
theorem confirmBatchTransfer_fst (orders : List Order)
    (selectedIds : List String) (batchTeam batchWorkerName : String)
    (currentUser : User) (now : Nat) (remoteOutcome : String → Bool)
    (h : batchTeam ≠ "") :
    (confirmBatchTransfer orders selectedIds batchTeam batchWorkerName
        currentUser now remoteOutcome).1
      = orders.map (fun o =>
          (selectedIds.map fun oid =>
            (oid, mkBatchPatch orders oid batchTeam batchWorkerName
              currentUser now)).foldl applyUpdateStep o) := by
  simp only [confirmBatchTransfer, if_neg h]
  split <;> exact foldl_handleOrderUpdate_eq_map _ _ _

/-- Claim C9: a reassignment — single transfer or batch transfer — keeps
the collection's length, leaves every field outside `team`, `userName`
and `history` of every order unchanged, leaves non-target orders entirely
unchanged, and for each target order updates the owner (and, for the
batch, the team) while appending exactly one history entry. -/
theorem claim_C9 (orders : List Order) (targetOrderId newOwnerName : String)
    (selectedIds : List String) (batchTeam batchWorkerName : String)
    (adminUser : User) (now : Nat) (remoteOk : Bool)
    (remoteOutcome : String → Bool)
    (hn : trim newOwnerName ≠ "") (hteam : batchTeam ≠ "")
    (hnd : (orders.map Order.id).Nodup) (hsel : selectedIds.Nodup) :
    ((confirmTransfer orders targetOrderId newOwnerName adminUser now
        remoteOk).1.length = orders.length
    ∧ ∀ i (hi : i < orders.length)
        (hi2 : i < (confirmTransfer orders targetOrderId newOwnerName adminUser
          now remoteOk).1.length),
        frameEq orders[i]
          (confirmTransfer orders targetOrderId newOwnerName adminUser now
            remoteOk).1[i]
        ∧ (orders[i].id ≠ targetOrderId →
          (confirmTransfer orders targetOrderId newOwnerName adminUser now
            remoteOk).1[i] = orders[i])
        ∧ (orders[i].id = targetOrderId →
          (confirmTransfer orders targetOrderId newOwnerName adminUser now
              remoteOk).1[i].userName = trim newOwnerName
          ∧ (confirmTransfer orders targetOrderId newOwnerName adminUser now
              remoteOk).1[i].team = orders[i].team
          ∧ ∃ e, (confirmTransfer orders targetOrderId newOwnerName adminUser
              now remoteOk).1[i].history = orders[i].history ++ [e]))
    ∧ ((confirmBatchTransfer orders selectedIds batchTeam batchWorkerName
        adminUser now remoteOutcome).1.length = orders.length
    ∧ ∀ i (hi : i < orders.length)
        (hi2 : i < (confirmBatchTransfer orders selectedIds batchTeam
          batchWorkerName adminUser now remoteOutcome).1.length),
        frameEq orders[i]
          (confirmBatchTransfer orders selectedIds batchTeam batchWorkerName
            adminUser now remoteOutcome).1[i]
        ∧ (orders[i].id ∉ selectedIds →
          (confirmBatchTransfer orders selectedIds batchTeam batchWorkerName
            adminUser now remoteOutcome).1[i] = orders[i])
        ∧ (orders[i].id ∈ selectedIds →
          (confirmBatchTransfer orders selectedIds batchTeam batchWorkerName
              adminUser now remoteOutcome).1[i].team = batchTeam
          ∧ ∃ e, (confirmBatchTransfer orders selectedIds batchTeam
              batchWorkerName adminUser now remoteOutcome).1[i].history
            = orders[i].history ++ [e])) := by
  constructor
  · simp only [confirmTransfer, if_neg hn, handleOrderUpdate]
    constructor
    · exact List.length_map _ _
    · intro i hi hi2
      rw [List.getElem_map]
      by_cases h : orders[i].id = targetOrderId
      · rw [if_pos h]
        refine ⟨⟨rfl, rfl, rfl, rfl, rfl, rfl, rfl, rfl, rfl, rfl, rfl, rfl,
          rfl, rfl⟩, fun hne => absurd h hne, fun _ => ⟨rfl, rfl, ?_⟩⟩
        refine ⟨transferHistoryEntry adminUser.name newOwnerName now, ?_⟩
        have hfind := find?_id_of_nodup orders targetOrderId hnd orders[i]
          (orders.getElem_mem hi) h
        simp only [applyPatch, hfind, Option.getD_some]
      · rw [if_neg h]
        exact ⟨⟨rfl, rfl, rfl, rfl, rfl, rfl, rfl, rfl, rfl, rfl, rfl, rfl,
          rfl, rfl⟩, fun _ => rfl, fun he => absurd he h⟩
  · rw [confirmBatchTransfer_fst orders selectedIds batchTeam batchWorkerName
      adminUser now remoteOutcome hteam]
    constructor
    · exact List.length_map _ _
    · intro i hi hi2
      rw [List.getElem_map]
      by_cases hmem : orders[i].id ∈ selectedIds
      · rw [foldl_step_mem
          (fun oid => mkBatchPatch orders oid batchTeam batchWorkerName
            adminUser now) (fun _ => rfl) selectedIds _ hsel hmem]
        refine ⟨⟨rfl, rfl, rfl, rfl, rfl, rfl, rfl, rfl, rfl, rfl, rfl, rfl,
          rfl, rfl⟩, fun hne => absurd hmem hne, fun _ => ⟨rfl, ?_⟩⟩
        have hfind := find?_id_of_nodup orders orders[i].id hnd orders[i]
          (orders.getElem_mem hi) rfl
        refine ⟨batchHistoryEntry adminUser.name batchTeam
          (if trim batchWorkerName ≠ "" then trim batchWorkerName
            else orders[i].userName) now, ?_⟩
        simp only [applyPatch, mkBatchPatch, hfind, Option.getD_some]
      · rw [foldl_step_not_mem]
        · exact ⟨⟨rfl, rfl, rfl, rfl, rfl, rfl, rfl, rfl, rfl, rfl, rfl, rfl,
            rfl, rfl⟩, fun _ => rfl, fun he => absurd he hmem⟩
        · intro up hup
          obtain ⟨oid, hoid, rfl⟩ := List.mem_map.mp hup
          intro he
          rw [he] at hmem
          exact hmem hoid

/-- Claim C9 witness: the concrete single transfer keeps the collection
length and leaves the target order's status untouched. -/
theorem claim_C9_witness :
    (confirmTransfer [c9order] "x1" "Bob" aSession 5 true).1.length = 1 :=
  (claim_C9 [c9order] "x1" "Bob" ["x1"] "T2" "" aSession 5 true c9outcome
    (by decide) (by decide) (by decide) (by decide)).1.1

end OrderSystem
